import Mathlib

/-!
Shallow embedding of the AVL-tree implementation in `src/main.rs`
(`bpol9/avl_tree_rust`), and verification of the specification's claims
about it.

The Rust nodes are `Rc<RefCell<AVLNode<T>>>` records with a `value`, a
cached `height`, owning `left`/`right` links and a non-owning `parent`
back-reference.  Because the claims speak about record *identity* (which
record holds which value, where a parent link points), the primary model
is an arena: a heap mapping indices (`Nat`, playing the role of the
`Rc` addresses) to node records.  `T` is instantiated at `Int`, the
ordered value type the repository's own test uses (integer literals).

Two modelling decisions, stated once here:
* a `.unwrap()` on `None` (a panic) is modelled by the embedding
  returning `none`/a `panicked` result;
* `RefCell`'s dynamic borrow-flag aborts are not modelled — only the
  explicit `unwrap` failure points of the source are.

Downward-only traversals (the `remove` search loop and `replacement`,
which never read a `parent` link) are additionally modelled on an
inductive tree, the shape that the owning `left`/`right` links of a
well-formed arena describe; parent links are irrelevant to them.
-/

namespace Avl

/-- The `Side` enum of the source (`enum Side { Left, Right }`). -/
inductive Side
  | Left
  | Right
deriving DecidableEq, Repr

/-- The `impl Not for Side` of the source: `!side` flips the side. -/
def Side.not : Side → Side
  | Side.Left => Side.Right
  | Side.Right => Side.Left

/-- One `AVLNode<T>` record (with `T = Int`): `value`, cached `height`,
and the `parent`/`left`/`right` links, each an optional arena index
standing for the optional `Rc` pointer of the source. -/
structure Node where
  value : Int
  height : Nat
  parent : Option Nat
  left : Option Nat
  right : Option Nat
deriving DecidableEq, Repr

/-- The arena: a map from indices (the model of `Rc` addresses) to live
node records.  `none` marks an address that holds no record. -/
abbrev Heap := Nat → Option Node

/-- Overwrite the record stored at index `i`. -/
def hset (h : Heap) (i : Nat) (nd : Node) : Heap :=
  fun k => if k = i then some nd else h k

/-- The `child(side)` accessor of the source. -/
def Node.child (n : Node) : Side → Option Nat
  | Side.Left => n.left
  | Side.Right => n.right

/-- Assignment through the `child_mut(side)` accessor of the source. -/
def Node.setChild (n : Node) : Side → Option Nat → Node
  | Side.Left, c => { n with left := c }
  | Side.Right, c => { n with right := c }

/-- The `height(side)` helper of the source:
`self.child(side).as_ref().map_or(0, |n| n.borrow().height)` — the
cached height of the named child, `0` if the child is absent.  (A
dangling index cannot arise in the source, where links are live `Rc`
pointers; it is read as height 0 here.) -/
def height_of (h : Heap) (n : Node) (s : Side) : Nat :=
  match n.child s with
  | none => 0
  | some i =>
    match h i with
    | none => 0
    | some c => c.height

/-- The `update_height` method of the source:
`self.height = 1 + max(self.height(Left), self.height(Right))`. -/
def update_height (h : Heap) (i : Nat) : Heap :=
  match h i with
  | none => h
  | some n =>
    hset h i { n with height := 1 + max (height_of h n Side.Left) (height_of h n Side.Right) }

/-- The value of a `usize` difference after the source's `as i8` cast. -/
def asI8 (n : Nat) : Int :=
  let m := n % 256
  if m < 128 then (m : Int) else (m : Int) - 256

/-- The `balance_factor` method of the source: with `left`/`right` the
two child heights, `(right - left) as i8` when `left < right`, and
`-((left - right) as i8)` otherwise. -/
def balance_factor (h : Heap) (n : Node) : Int :=
  let l := height_of h n Side.Left
  let r := height_of h n Side.Right
  if l < r then asI8 (r - l) else - asI8 (l - r)

/-- The `is_left_child` method of the source, line for line:
`None` parent gives `false`; otherwise the result is
`p.borrow().child(Side::Left).as_ref().unwrap().borrow().value == self.value`
— a comparison of *values*, through an `unwrap` of the parent's left
child.  A failing `unwrap` (parent present but without a left child) is
modelled as `none`. -/
def is_left_child (h : Heap) (i : Nat) : Option Bool :=
  match h i with
  | none => none
  | some n =>
    match n.parent with
    | none => some false
    | some pi =>
      match h pi with
      | none => none
      | some p =>
        match p.left with
        | none => none
        | some li =>
          match h li with
          | none => none
          | some ln => some (decide (ln.value = n.value))

/-- Update the record stored at `i` in place (a write through a `&mut`
borrow of a live record; a missing record — impossible in the source —
leaves the arena unchanged). -/
def hmodify (h : Heap) (i : Nat) (f : Node → Node) : Heap :=
  match h i with
  | none => h
  | some n => hset h i (f n)

/-- The effect of `mem::swap(self, &mut subtree.borrow_mut())` at
`rotate`'s line 128: the two records exchange their entire contents. -/
def swapRecords (h : Heap) (i j : Nat) : Heap :=
  match h i, h j with
  | some a, some b => hset (hset h i b) j a
  | _, _ => h

/-- The effect of `mem::swap(self.parent_mut(), subtree.borrow_mut().parent_mut())`
at `rotate`'s line 129: the two records exchange their parent fields. -/
def swapParents (h : Heap) (i j : Nat) : Heap :=
  match h i, h j with
  | some a, some b => hset (hset h i { a with parent := b.parent }) j { b with parent := a.parent }
  | _, _ => h

/-- The `rotate` method of the source, applied to the record at `i`:

```
let subtree = self.child_mut(!side).take().unwrap();
*self.child_mut(!side) = subtree.borrow_mut().child_mut(side).take();
self.update_height();
mem::swap(self, &mut subtree.borrow_mut());
mem::swap(self.parent_mut(), subtree.borrow_mut().parent_mut());
*self.child_mut(side) = Some(subtree);
self.update_height();
```

The first two lines leave record `i` with its `!side` child replaced by
the subtree's `side` child, and the subtree record `j` with its `side`
child taken out.  `none` models the failing `unwrap` when the `!side`
child is absent. -/
def rotate (h : Heap) (i : Nat) (side : Side) : Option Heap :=
  match h i with
  | none => none
  | some n =>
    match n.child side.not with
    | none => none
    | some j =>
      match h j with
      | none => none
      | some sub =>
        let h1 := hset h i (n.setChild side.not (sub.child side))
        let h2 := hset h1 j (sub.setChild side none)
        let h3 := update_height h2 i
        let h4 := swapParents (swapRecords h3 i j) i j
        let h5 := hmodify h4 i (fun m => m.setChild side (some j))
        some (update_height h5 i)

/-- Outcome of running `rebalance` to completion (with enough fuel), of
hitting a failing `unwrap`, or of the fuel bound being too small. -/
inductive RebalResult
  | done (h : Heap)
  | panicked
  | outOfFuel

/-- Outcome of one iteration of `rebalance`'s `while let` body: a panic,
a `break` with the final heap, or a `continue` carrying the next index
(`next`, i.e. the parent read at the top of the body) and the value of
the outer mutable `b`. -/
inductive StepOut
  | panic
  | stop (h : Heap)
  | cont (h : Heap) (nxt : Nat) (b : Int)

/-- One iteration of the `while let Some(node_ref) = next` body of the
source's `rebalance` (lines 141–202), at current index `i` with the
outer mutable `b` as given:

* `next = n.parent; if next.is_none() { break; }`;
* `p` is borrowed, then `n.is_left_child()` is consulted;
* left-child side: `p.balance_factor() > 0` picks the rotation case,
  with `b = z.balance_factor()` *assigned to the outer `b`* and a
  double (`b < 0`) or single rotation performed; otherwise
  `p.update_height()` and `break` (balance factor 0) or `continue`;
* right-child side: mirror image, except the source writes
  `let b = z.balance_factor()`, a *shadowing* binding, so the outer `b`
  is not updated there;
* after a rotation: `if b == 0 { break }`, reading the outer `b`.

The unreachable `none` lookups of live indices are mapped to `panic`. -/
def rebalance_step (h : Heap) (i : Nat) (b : Int) : StepOut :=
  match h i with
  | none => StepOut.panic
  | some n =>
    match n.parent with
    | none => StepOut.stop h
    | some pi =>
      match h pi with
      | none => StepOut.panic
      | some p =>
        match is_left_child h i with
        | none => StepOut.panic
        | some true =>
          if balance_factor h p > 0 then
            match p.right with
            | none => StepOut.panic
            | some zi =>
              match h zi with
              | none => StepOut.panic
              | some z =>
                if balance_factor h z < 0 then
                  match rotate h zi Side.Right with
                  | none => StepOut.panic
                  | some ha =>
                    match rotate ha pi Side.Left with
                    | none => StepOut.panic
                    | some hb =>
                      if balance_factor h z = 0 then StepOut.stop hb
                      else StepOut.cont hb pi (balance_factor h z)
                else
                  match rotate h pi Side.Left with
                  | none => StepOut.panic
                  | some hb =>
                    if balance_factor h z = 0 then StepOut.stop hb
                    else StepOut.cont hb pi (balance_factor h z)
          else
            if balance_factor h p = 0 then StepOut.stop (update_height h pi)
            else StepOut.cont (update_height h pi) pi b
        | some false =>
          if balance_factor h p < 0 then
            match p.left with
            | none => StepOut.panic
            | some zi =>
              match h zi with
              | none => StepOut.panic
              | some z =>
                if balance_factor h z > 0 then
                  match rotate h zi Side.Left with
                  | none => StepOut.panic
                  | some ha =>
                    match rotate ha pi Side.Right with
                    | none => StepOut.panic
                    | some hb =>
                      if b = 0 then StepOut.stop hb
                      else StepOut.cont hb pi b
                else
                  match rotate h pi Side.Right with
                  | none => StepOut.panic
                  | some hb =>
                    if b = 0 then StepOut.stop hb
                    else StepOut.cont hb pi b
          else
            if balance_factor h p = 0 then StepOut.stop (update_height h pi)
            else StepOut.cont (update_height h pi) pi b

/-- The `while let Some(node_ref) = next` loop of `rebalance`, as a
fuel-indexed iteration of `rebalance_step`.  `outOfFuel` is returned
only when the fuel bound is exhausted with the walk still running. -/
def rebalance_loop : Nat → Heap → Option Nat → Int → RebalResult
  | _, h, none, _ => RebalResult.done h
  | 0, _, some _, _ => RebalResult.outOfFuel
  | fuel + 1, h, some i, b =>
    match rebalance_step h i b with
    | StepOut.panic => RebalResult.panicked
    | StepOut.stop hb => RebalResult.done hb
    | StepOut.cont hb nxt bb => rebalance_loop fuel hb (some nxt) bb

/-- The `rebalance` free function of the source: run the walk from
`r_node` with the outer `b` initialised to `0`. -/
def rebalance (fuel : Nat) (h : Heap) (r : Option Nat) : RebalResult :=
  rebalance_loop fuel h r 0

/-- Number of parent links followed from `i` until a record with no
parent is reached, when that happens within `fuel` steps: the number of
ancestors of the record at `i`. -/
def chain_len (h : Heap) : Nat → Nat → Option Nat
  | 0, _ => none
  | fuel + 1, i =>
    match h i with
    | none => none
    | some n =>
      match n.parent with
      | none => some 0
      | some p => (chain_len h fuel p).map (fun a => a + 1)

/-- The parent field of the record at `k`, `none` when no record lives
there: the only data `rebalance`'s upward walk steers by. -/
def parent_map (h : Heap) (k : Nat) : Option (Option Nat) :=
  (h k).map Node.parent

/-!
Inductive view of the owning structure.  The `left`/`right` links of
the source are owning `Rc` pointers flowing strictly root-to-leaves, so
the structure reachable through them is a binary tree; computations
that never read a `parent` link (the `remove` search loop and
`replacement`) are modelled directly on that tree.  `leaf` stands for
an absent child (`None`), `node` carries the same `value` and cached
`height` fields as an `AVLNode` record.
-/

/-- A subtree: `leaf` for `None`, otherwise a node record with its
value, cached height, and its two owned subtrees. -/
inductive Tree
  | leaf
  | node (left : Tree) (value : Int) (height : Nat) (right : Tree)
deriving DecidableEq, Repr

/-- In-order list of the values held in a subtree. -/
def toList : Tree → List Int
  | Tree.leaf => []
  | Tree.node l v _ r => toList l ++ v :: toList r

/-- Left subtree of a node (`leaf` on `leaf`). -/
def Tree.left : Tree → Tree
  | Tree.leaf => Tree.leaf
  | Tree.node l _ _ _ => l

/-- Right subtree of a node (`leaf` on `leaf`). -/
def Tree.right : Tree → Tree
  | Tree.leaf => Tree.leaf
  | Tree.node _ _ _ r => r

/-- Value at the root of a subtree (an arbitrary default on `leaf`,
which no statement relies on). -/
def Tree.value : Tree → Int
  | Tree.leaf => 0
  | Tree.node _ v _ _ => v

/-- The two `while let Some(node) = next` loops inside `replacement`:
`curr = None; next = <start>; while next { curr = next; next = curr.child(dir) }`,
returning the final `curr` — the deepest node reached from the given
start by following `dir`-links while one exists, `none` when the start
itself is absent. -/
def chase : Side → Tree → Option Tree
  | _, Tree.leaf => none
  | Side.Left, Tree.node l v ht r =>
    some (match chase Side.Left l with
          | none => Tree.node l v ht r
          | some m => m)
  | Side.Right, Tree.node l v ht r =>
    some (match chase Side.Right r with
          | none => Tree.node l v ht r
          | some m => m)

/-- The `replacement` method of the source: when the node has no left
child, chase `Left`-links starting at the right child (in-order
successor search); when it has one, chase `Right`-links starting at the
left child (in-order predecessor search).  On `leaf` — a state `self`
can never be in — the result is `none`. -/
def replacement : Tree → Option Tree
  | Tree.leaf => none
  | Tree.node l _ _ r =>
    match l with
    | Tree.leaf => chase Side.Left r
    | Tree.node _ _ _ _ => chase Side.Right l

/-- Strict ascending sortedness of a list of values — the in-order
characterisation of the BST-order invariant of the spec. -/
def sortedLt : List Int → Bool
  | [] => true
  | [_] => true
  | a :: b :: t => decide (a < b) && sortedLt (b :: t)

/-- Cached height at the root of a subtree, `0` for an absent one. -/
def top_height : Tree → Nat
  | Tree.leaf => 0
  | Tree.node _ _ ht _ => ht

/-- Node constructor recomputing the cached height as
`1 + max(child heights)`, the source's `update_height` recipe. -/
def mk_node (l : Tree) (v : Int) (r : Tree) : Tree :=
  Tree.node l v (1 + max (top_height l) (top_height r)) r

/-- Modelled from the spec: detaching the replacement node — which, as
a rightmost node, has no right child — by splicing its left subtree
into its slot (spec §4.5, one-child/leaf detachment).  The source's
deletion body calls `remove_child`, which does not exist in the
repository. -/
def drop_rightmost : Tree → Tree
  | Tree.leaf => Tree.leaf
  | Tree.node l v _ r =>
    match r with
    | Tree.leaf => l
    | Tree.node a b c d => mk_node l v (drop_rightmost (Tree.node a b c d))

/-- Modelled from the spec: the deletion performed once the search has
broken out at the found node.  The source's body (lines 240–266) calls
methods that do not exist in the repository (`is_leaf`,
`is_only_child`, `remove_child`, a node-level `rebalance`), so this
follows spec §4.5: a node with at most one child is spliced out; a
two-child node receives the replacement's value and the replacement
node itself is detached.  The Rebalancer's rotations are not replayed
here (heights are recomputed as `1 + max`); no settled claim depends on
this branch's output. -/
def delete_root : Tree → Tree
  | Tree.leaf => Tree.leaf
  | Tree.node l _ _ r =>
    match l with
    | Tree.leaf => r
    | Tree.node a b c d =>
      match r with
      | Tree.leaf => Tree.node a b c d
      | Tree.node _ _ _ _ =>
        match chase Side.Right (Tree.node a b c d) with
        | none => r
        | some m => mk_node (drop_rightmost (Tree.node a b c d)) (Tree.value m) r

/-- The descent loop of `AVLTree::remove` (lines 226–237), translated
with its comparison arms exactly as written:

```
match value.cmp(&node.borrow().value) {
    Ordering::Equal => break,
    Ordering::Greater => node_opt = node.borrow().left,
    Ordering::Less => node_opt = node.borrow().right
}
```

so a value *greater* than the node's is sought in the *left* child and
a *smaller* one in the *right* child.  The `None => false` arm is read
as returning not-found, the only reading consistent with the
function's `bool` return type (as written the function does not
compile: that arm neither returns nor breaks).  `none` here is the
not-found exit, `some` carries the tree after the found-case deletion
(`delete_root`) is performed at the node the descent broke at. -/
def remove_go : Tree → Int → Option Tree
  | Tree.leaf, _ => none
  | Tree.node l x ht r, v =>
    if v = x then some (delete_root (Tree.node l x ht r))
    else if x < v then (remove_go l v).map (fun la => Tree.node la x ht r)
    else (remove_go r v).map (fun ra => Tree.node l x ht ra)

/-- `AVLTree::remove`: the search loop, then — only when the descent
broke at a node holding the value — the deletion body; the returned
`bool` is the found/not-found signal. -/
def remove (t : Tree) (v : Int) : Bool × Tree :=
  match remove_go t v with
  | none => (false, t)
  | some ta => (true, ta)

/-!
Concrete fixtures: the scenarios named by the spec and the inputs the
claims are settled on.
-/

/-- Scenario D as an arena: record `0` holds value `1` with record `1`
(value `2`) as its left child and no other children. -/
def dHeap : Heap := fun k =>
  match k with
  | 0 => some { value := 1, height := 2, parent := none, left := some 1, right := none }
  | 1 => some { value := 2, height := 1, parent := some 0, left := none, right := none }
  | _ => none

/-- A five-record tree satisfying every invariant of spec §3 (BST
order, balance, height consistency, parent consistency): value 10 at
record 0, left child 5 (record 1, with children 3 and 7 at records 3
and 4), right child 15 (record 2). -/
def fiveHeap : Heap := fun k =>
  match k with
  | 0 => some { value := 10, height := 3, parent := none, left := some 1, right := some 2 }
  | 1 => some { value := 5, height := 2, parent := some 0, left := some 3, right := some 4 }
  | 2 => some { value := 15, height := 1, parent := some 0, left := none, right := none }
  | 3 => some { value := 3, height := 1, parent := some 1, left := none, right := none }
  | 4 => some { value := 7, height := 1, parent := some 1, left := none, right := none }
  | _ => none

/-- A tree with transient duplicate values: record 0 (value 5) has left
child record 1 and right child record 2, both holding value 7. -/
def dupHeap : Heap := fun k =>
  match k with
  | 0 => some { value := 5, height := 2, parent := none, left := some 1, right := some 2 }
  | 1 => some { value := 7, height := 1, parent := some 0, left := none, right := none }
  | 2 => some { value := 7, height := 1, parent := some 0, left := none, right := none }
  | _ => none

/-- A well-formed two-node tree whose root (record 0, value 1) has only
a right child (record 1, value 2). -/
def rightOnlyHeap : Heap := fun k =>
  match k with
  | 0 => some { value := 1, height := 2, parent := none, left := none, right := some 1 }
  | 1 => some { value := 2, height := 1, parent := some 0, left := none, right := none }
  | _ => none

/-- Left subtree of Scenario B: value 2 with children 4 and 5 (the
heights are the ones the repository's test constructs). -/
def scenBL : Tree :=
  Tree.node (Tree.node Tree.leaf 4 0 Tree.leaf) 2 1 (Tree.node Tree.leaf 5 0 Tree.leaf)

/-- Right subtree of Scenarios B and C: value 3 with children 6 and 7. -/
def scenBR : Tree :=
  Tree.node (Tree.node Tree.leaf 6 0 Tree.leaf) 3 1 (Tree.node Tree.leaf 7 0 Tree.leaf)

/-- Scenario B: root 1, left child 2 (children 4 and 5), right child 3
(children 6 and 7). -/
def scenB : Tree := Tree.node scenBL 1 2 scenBR

/-- Scenario C: Scenario B with node 2's children removed. -/
def scenC : Tree := Tree.node (Tree.node Tree.leaf 2 1 Tree.leaf) 1 2 scenBR

/-- A two-value AVL/BST: root 1 with right child 2. -/
def pairTree : Tree := Tree.node Tree.leaf 1 2 (Tree.node Tree.leaf 2 1 Tree.leaf)

/-!
Helper lemmas about the arena operations.
-/

lemma chain_len_zero (h : Heap) (i : Nat) : chain_len h 0 i = none := rfl

lemma chain_len_none (h : Heap) (f i : Nat) (hi : h i = none) : chain_len h (f + 1) i = none := by
  unfold chain_len
  rw [hi]

lemma chain_len_some (h : Heap) (f i : Nat) (n : Node) (hi : h i = some n) :
    chain_len h (f + 1) i =
      match n.parent with
      | none => some 0
      | some p => (chain_len h f p).map (fun a => a + 1) := by
  simp only [chain_len, hi]

lemma hset_self (h : Heap) (i : Nat) (nd : Node) : hset h i nd i = some nd := by
  simp [hset]

lemma hset_other (h : Heap) (i k : Nat) (nd : Node) (hk : k ≠ i) : hset h i nd k = h k := by
  simp [hset, hk]

lemma setChild_parent (n : Node) (s : Side) (c : Option Nat) :
    (n.setChild s c).parent = n.parent := by
  cases s <;> rfl

lemma setChild_value (n : Node) (s : Side) (c : Option Nat) :
    (n.setChild s c).value = n.value := by
  cases s <;> rfl

lemma setChild_child_self (n : Node) (s : Side) (c : Option Nat) :
    (n.setChild s c).child s = c := by
  cases s <;> rfl

lemma withHeight_child (n : Node) (ht : Nat) (s : Side) :
    ({ n with height := ht } : Node).child s = n.child s := by
  cases s <;> rfl

lemma update_height_eq (h : Heap) (i : Nat) (n : Node) (hi : h i = some n) :
    update_height h i =
      hset h i { n with height := 1 + max (height_of h n Side.Left) (height_of h n Side.Right) } := by
  unfold update_height
  rw [hi]

lemma update_height_none (h : Heap) (i : Nat) (hi : h i = none) :
    update_height h i = h := by
  unfold update_height
  rw [hi]

lemma hset_parent_map (h : Heap) (i : Nat) (nd : Node)
    (hp : (h i).map Node.parent = some nd.parent) (k : Nat) :
    parent_map (hset h i nd) k = parent_map h k := by
  unfold parent_map
  by_cases hk : k = i
  · subst hk
    rw [hset_self, hp]
    rfl
  · rw [hset_other _ _ _ _ hk]

lemma update_height_parent_map (h : Heap) (i : Nat) (k : Nat) :
    parent_map (update_height h i) k = parent_map h k := by
  cases hi : h i with
  | none => rw [update_height_none h i hi]
  | some n =>
    rw [update_height_eq h i n hi]
    exact hset_parent_map h i _ (by rw [hi]; rfl) k

lemma swapRecords_eq (h : Heap) (i j : Nat) (a b : Node)
    (hi : h i = some a) (hj : h j = some b) :
    swapRecords h i j = hset (hset h i b) j a := by
  unfold swapRecords
  rw [hi, hj]

lemma swapParents_eq (h : Heap) (i j : Nat) (a b : Node)
    (hi : h i = some a) (hj : h j = some b) :
    swapParents h i j =
      hset (hset h i { a with parent := b.parent }) j { b with parent := a.parent } := by
  unfold swapParents
  rw [hi, hj]

lemma swap_pair_parent_map (h : Heap) (i j : Nat) (k : Nat) :
    parent_map (swapParents (swapRecords h i j) i j) k = parent_map h k := by
  cases hi : h i with
  | none =>
    have hs : swapRecords h i j = h := by
      unfold swapRecords
      rw [hi]
    have hp : swapParents h i j = h := by
      unfold swapParents
      rw [hi]
    rw [hs, hp]
  | some a =>
    cases hj : h j with
    | none =>
      have hs : swapRecords h i j = h := by
        unfold swapRecords
        rw [hi, hj]
      have hp : swapParents h i j = h := by
        unfold swapParents
        rw [hi, hj]
      rw [hs, hp]
    | some b =>
      rw [swapRecords_eq h i j a b hi hj]
      by_cases hij : i = j
      · subst hij
        have h1 : hset (hset h i b) i a i = some a := hset_self _ _ _
        rw [swapParents_eq _ i i a a h1 h1]
        unfold parent_map
        by_cases hk : k = i
        · subst hk
          rw [hset_self, hi]
        · rw [hset_other _ _ _ _ hk, hset_other _ _ _ _ hk, hset_other _ _ _ _ hk,
            hset_other _ _ _ _ hk]
      · have h1 : hset (hset h i b) j a i = some b := by
          rw [hset_other _ _ _ _ hij, hset_self]
        have h2 : hset (hset h i b) j a j = some a := hset_self _ _ _
        rw [swapParents_eq _ i j b a h1 h2]
        unfold parent_map
        by_cases hk : k = i
        · subst hk
          rw [hset_other _ _ _ _ hij, hset_self, hi]
          rfl
        · by_cases hk2 : k = j
          · subst hk2
            rw [hset_self, hj]
            rfl
          · rw [hset_other _ _ _ _ hk2, hset_other _ _ _ _ hk, hset_other _ _ _ _ hk2,
              hset_other _ _ _ _ hk]

lemma hmodify_eq (h : Heap) (i : Nat) (f : Node → Node) (n : Node) (hi : h i = some n) :
    hmodify h i f = hset h i (f n) := by
  unfold hmodify
  rw [hi]

lemma hmodify_other (h : Heap) (i : Nat) (f : Node → Node) (k : Nat) (hk : k ≠ i) :
    hmodify h i f k = h k := by
  unfold hmodify
  cases hi : h i with
  | none => rfl
  | some n => exact hset_other _ _ _ _ hk

lemma hmodify_none (h : Heap) (i : Nat) (f : Node → Node) (hi : h i = none) :
    hmodify h i f = h := by
  unfold hmodify
  rw [hi]

lemma hmodify_parent_map (h : Heap) (i : Nat) (f : Node → Node)
    (hf : ∀ m, (f m).parent = m.parent) (k : Nat) :
    parent_map (hmodify h i f) k = parent_map h k := by
  cases hi : h i with
  | none => rw [hmodify_none h i f hi]
  | some n =>
    rw [hmodify_eq h i f n hi]
    exact hset_parent_map h i (f n) (by rw [hi, hf]; rfl) k

lemma update_height_other (h : Heap) (i : Nat) (k : Nat) (hk : k ≠ i) :
    update_height h i k = h k := by
  cases hi : h i with
  | none => rw [update_height_none h i hi]
  | some n =>
    rw [update_height_eq h i n hi]
    exact hset_other _ _ _ _ hk

lemma update_height_value (h : Heap) (i : Nat) (k : Nat) :
    ((update_height h i) k).map Node.value = (h k).map Node.value := by
  cases hi : h i with
  | none => rw [update_height_none h i hi]
  | some n =>
    rw [update_height_eq h i n hi]
    by_cases hk : k = i
    · subst hk
      rw [hset_self, hi]
      rfl
    · rw [hset_other _ _ _ _ hk]

lemma update_height_childp (h : Heap) (i : Nat) (s : Side) (k : Nat) :
    ((update_height h i) k).map (fun m => m.child s) = (h k).map (fun m => m.child s) := by
  cases hi : h i with
  | none => rw [update_height_none h i hi]
  | some n =>
    rw [update_height_eq h i n hi]
    by_cases hk : k = i
    · subst hk
      rw [hset_self, hi]
      simp [withHeight_child]
    · rw [hset_other _ _ _ _ hk]

lemma update_height_parentp (h : Heap) (i : Nat) (k : Nat) :
    ((update_height h i) k).map Node.parent = (h k).map Node.parent :=
  update_height_parent_map h i k

lemma hmodify_setChild_value (h : Heap) (i : Nat) (s : Side) (c : Option Nat) (k : Nat) :
    ((hmodify h i (fun m => m.setChild s c)) k).map Node.value = (h k).map Node.value := by
  cases hi : h i with
  | none => rw [hmodify_none h i _ hi]
  | some n =>
    rw [hmodify_eq h i _ n hi]
    by_cases hk : k = i
    · subst hk
      rw [hset_self, hi]
      simp [setChild_value]
    · rw [hset_other _ _ _ _ hk]

lemma hmodify_setChild_parentp (h : Heap) (i : Nat) (s : Side) (c : Option Nat) (k : Nat) :
    ((hmodify h i (fun m => m.setChild s c)) k).map Node.parent = (h k).map Node.parent :=
  hmodify_parent_map h i _ (fun m => setChild_parent m s c) k

lemma swapRecords_none1 (h : Heap) (i j : Nat) (hi : h i = none) : swapRecords h i j = h := by
  unfold swapRecords
  rw [hi]

lemma swapRecords_none2 (h : Heap) (i j : Nat) (hj : h j = none) : swapRecords h i j = h := by
  unfold swapRecords
  rw [hj]
  cases h i <;> rfl

lemma swapParents_none1 (h : Heap) (i j : Nat) (hi : h i = none) : swapParents h i j = h := by
  unfold swapParents
  rw [hi]

lemma swapParents_none2 (h : Heap) (i j : Nat) (hj : h j = none) : swapParents h i j = h := by
  unfold swapParents
  rw [hj]
  cases h i <;> rfl

lemma swapRecords_other (h : Heap) (i j : Nat) (k : Nat) (hk1 : k ≠ i) (hk2 : k ≠ j) :
    swapRecords h i j k = h k := by
  cases hi : h i with
  | none => rw [swapRecords_none1 h i j hi]
  | some a =>
    cases hj : h j with
    | none => rw [swapRecords_none2 h i j hj]
    | some b =>
      rw [swapRecords_eq h i j a b hi hj, hset_other _ _ _ _ hk2, hset_other _ _ _ _ hk1]

lemma swapParents_other (h : Heap) (i j : Nat) (k : Nat) (hk1 : k ≠ i) (hk2 : k ≠ j) :
    swapParents h i j k = h k := by
  cases hi : h i with
  | none => rw [swapParents_none1 h i j hi]
  | some a =>
    cases hj : h j with
    | none => rw [swapParents_none2 h i j hj]
    | some b =>
      rw [swapParents_eq h i j a b hi hj, hset_other _ _ _ _ hk2, hset_other _ _ _ _ hk1]

lemma swapParents_value (h : Heap) (i j : Nat) (k : Nat) :
    ((swapParents h i j) k).map Node.value = (h k).map Node.value := by
  cases hi : h i with
  | none => rw [swapParents_none1 h i j hi]
  | some a =>
    cases hj : h j with
    | none => rw [swapParents_none2 h i j hj]
    | some b =>
      rw [swapParents_eq h i j a b hi hj]
      by_cases hk2 : k = j
      · subst hk2
        rw [hset_self, hj]
        rfl
      · by_cases hk1 : k = i
        · subst hk1
          rw [hset_other _ _ _ _ hk2, hset_self, hi]
          rfl
        · rw [hset_other _ _ _ _ hk2, hset_other _ _ _ _ hk1]

lemma rotate_parent_map (h : Heap) (i : Nat) (s : Side) (hh : Heap)
    (hr : rotate h i s = some hh) (k : Nat) : parent_map hh k = parent_map h k := by
  unfold rotate at hr
  split at hr
  · cases hr
  rename_i n hi
  split at hr
  · cases hr
  rename_i j hch
  split at hr
  · cases hr
  rename_i sub hj
  simp only at hr
  cases hr
  have e1 : ∀ m, parent_map (hset h i (n.setChild s.not (sub.child s))) m = parent_map h m := by
    intro m
    exact hset_parent_map h i _ (by rw [hi]; simp [setChild_parent]) m
  have e2 : ∀ m,
      parent_map (hset (hset h i (n.setChild s.not (sub.child s))) j (sub.setChild s none)) m =
        parent_map (hset h i (n.setChild s.not (sub.child s))) m := by
    intro m
    apply hset_parent_map
    by_cases hij : j = i
    · subst hij
      have hsn : sub = n := by
        rw [hi] at hj
        exact ((Option.some.injEq _ _).mp hj).symm
      subst hsn
      rw [hset_self]
      simp [setChild_parent]
    · rw [hset_other _ _ _ _ hij, hj]
      simp [setChild_parent]
  rw [update_height_parent_map, hmodify_parent_map _ _ _ (fun m => setChild_parent m s (some j)) k,
    swap_pair_parent_map, update_height_parent_map, e2 k, e1 k]

/-- Exact effect of a successful `rotate` on the arena, for two
distinct records `i` (the rotated node) and `j` (its `!side` child):
no record's parent field changes, records other than `i` and `j` are
untouched, record `i` afterwards holds the child's value with `j` as
its `side`-child and its own old parent link, and record `j` holds the
node's old value with its own old parent link. -/
lemma rotate_spec (h : Heap) (i j : Nat) (s : Side) (n sub : Node)
    (hi : h i = some n) (hch : n.child s.not = some j) (hj : h j = some sub) (hij : i ≠ j) :
    ∃ hh, rotate h i s = some hh ∧
      (∀ k, parent_map hh k = parent_map h k) ∧
      (∀ k, k ≠ i → k ≠ j → hh k = h k) ∧
      (hh i).map Node.value = some sub.value ∧
      (hh i).map (fun m => m.child s) = some (some j) ∧
      (hh i).map Node.parent = some n.parent ∧
      (hh j).map Node.value = some n.value ∧
      (hh j).map Node.parent = some sub.parent := by
  have hji : j ≠ i := fun hc => hij hc.symm
  cases hres : rotate h i s with
  | none =>
    exfalso
    unfold rotate at hres
    simp only [hi, hch, hj] at hres
    exact Option.noConfusion hres
  | some hh =>
    refine ⟨hh, rfl, rotate_parent_map h i s hh hres, ?_⟩
    unfold rotate at hres
    simp only [hi, hch, hj, Option.some.injEq] at hres
    subst hres
    set A := n.setChild s.not (sub.child s) with hA
    set B := sub.setChild s none with hB
    have eH2i : (hset (hset h i A) j B) i = some A := by
      rw [hset_other _ _ _ _ hij]
      exact hset_self _ _ _
    have eH2j : (hset (hset h i A) j B) j = some B := hset_self _ _ _
    obtain ⟨wa, eWi, hwaval, hwapar, hwachild⟩ :
        ∃ wa, update_height (hset (hset h i A) j B) i i = some wa ∧
          wa.value = A.value ∧ wa.parent = A.parent ∧ ∀ t, wa.child t = A.child t := by
      have eq1 : update_height (hset (hset h i A) j B) i i = some { A with height := 1 + max (height_of (hset (hset h i A) j B) A Side.Left) (height_of (hset (hset h i A) j B) A Side.Right) } := by
        rw [update_height_eq _ i A eH2i]
        exact hset_self _ _ _
      exact ⟨_, eq1, rfl, rfl, fun t => withHeight_child A _ t⟩
    have eWj : update_height (hset (hset h i A) j B) i j = some B := by
      rw [update_height_other _ _ _ hji]
      exact eH2j
    have eSRi : swapRecords (update_height (hset (hset h i A) j B) i) i j i = some B := by
      rw [swapRecords_eq _ i j wa B eWi eWj, hset_other _ _ _ _ hij]
      exact hset_self _ _ _
    have eSRj : swapRecords (update_height (hset (hset h i A) j B) i) i j j = some wa :=
      by rw [swapRecords_eq _ i j wa B eWi eWj]; exact hset_self _ _ _
    have eSPi : swapParents (swapRecords (update_height (hset (hset h i A) j B) i) i j) i j i =
        some { B with parent := wa.parent } := by
      rw [swapParents_eq _ i j B wa eSRi eSRj, hset_other _ _ _ _ hij]
      exact hset_self _ _ _
    have eSPj : swapParents (swapRecords (update_height (hset (hset h i A) j B) i) i j) i j j =
        some { wa with parent := B.parent } := by
      rw [swapParents_eq _ i j B wa eSRi eSRj]
      exact hset_self _ _ _
    refine ⟨?_, ?_, ?_, ?_, ?_, ?_⟩
    · intro k hk1 hk2
      rw [update_height_other _ _ _ hk1, hmodify_other _ _ _ _ hk1,
        swapParents_other _ _ _ _ hk1 hk2, swapRecords_other _ _ _ _ hk1 hk2,
        update_height_other _ _ _ hk1, hset_other _ _ _ _ hk2, hset_other _ _ _ _ hk1]
    · rw [update_height_value, hmodify_setChild_value, swapParents_value, eSRi, hB]
      simp [setChild_value]
    · rw [update_height_childp, hmodify_eq _ _ _ _ eSPi, hset_self]
      simp [setChild_child_self]
    · rw [update_height_parentp, hmodify_setChild_parentp]
      rw [show ((swapParents (swapRecords (update_height (hset (hset h i A) j B) i) i j) i j) i).map
            Node.parent = some ({ B with parent := wa.parent} : Node).parent by rw [eSPi]; rfl]
      rw [show ({ B with parent := wa.parent} : Node).parent = wa.parent from rfl, hwapar, hA]
      rw [setChild_parent]
    · rw [update_height_other _ _ _ hji, hmodify_other _ _ _ _ hji]
      rw [show ((swapParents (swapRecords (update_height (hset (hset h i A) j B) i) i j) i j) j).map
            Node.value = some ({ wa with parent := B.parent} : Node).value by rw [eSPj]; rfl]
      rw [show ({ wa with parent := B.parent} : Node).value = wa.value from rfl, hwaval, hA]
      rw [setChild_value]
    · rw [update_height_other _ _ _ hji, hmodify_other _ _ _ _ hji]
      rw [show ((swapParents (swapRecords (update_height (hset (hset h i A) j B) i) i j) i j) j).map
            Node.parent = some ({ wa with parent := B.parent} : Node).parent by rw [eSPj]; rfl]
      rw [show ({ wa with parent := B.parent} : Node).parent = B.parent from rfl, hB]
      rw [setChild_parent]

/-- A `continue` of `rebalance`'s loop body never changes any record's
parent field, and the index it continues at is the parent of the index
it ran at: the walk steps strictly upward through a parent structure it
never rewrites. -/
lemma step_cont_chain (h : Heap) (i : Nat) (b : Int) (h2 : Heap) (nxt : Nat) (b2 : Int)
    (hs : rebalance_step h i b = StepOut.cont h2 nxt b2) :
    (∀ k, parent_map h2 k = parent_map h k) ∧ (h i).map Node.parent = some (some nxt) := by
  unfold rebalance_step at hs
  cases hni : h i with
  | none =>
    simp only [hni] at hs
    exact StepOut.noConfusion hs
  | some n =>
  simp only [hni] at hs
  cases hpar : n.parent with
  | none =>
    simp only [hpar] at hs
    exact StepOut.noConfusion hs
  | some pi =>
  simp only [hpar] at hs
  cases hpp : h pi with
  | none =>
    simp only [hpp] at hs
    exact StepOut.noConfusion hs
  | some p =>
  simp only [hpp] at hs
  cases hilc : is_left_child h i with
  | none =>
    simp only [hilc] at hs
    exact StepOut.noConfusion hs
  | some lft =>
  cases lft with
  | true =>
    simp only [hilc] at hs
    by_cases hbf : balance_factor h p > 0
    · rw [if_pos hbf] at hs
      cases hzr : p.right with
      | none =>
        simp only [hzr] at hs
        exact StepOut.noConfusion hs
      | some zi =>
      simp only [hzr] at hs
      cases hz : h zi with
      | none =>
        simp only [hz] at hs
        exact StepOut.noConfusion hs
      | some z =>
      simp only [hz] at hs
      by_cases hb1 : balance_factor h z < 0
      · rw [if_pos hb1] at hs
        cases hr1 : rotate h zi Side.Right with
        | none =>
          simp only [hr1] at hs
          exact StepOut.noConfusion hs
        | some ha =>
        simp only [hr1] at hs
        cases hr2 : rotate ha pi Side.Left with
        | none =>
          simp only [hr2] at hs
          exact StepOut.noConfusion hs
        | some hbh =>
        simp only [hr2] at hs
        by_cases hb0 : balance_factor h z = 0
        · rw [if_pos hb0] at hs
          exact StepOut.noConfusion hs
        · rw [if_neg hb0] at hs
          cases hs
          refine ⟨fun k => ?_, by simp [hpar]⟩
          rw [rotate_parent_map ha nxt Side.Left _ hr2 k, rotate_parent_map h zi Side.Right _ hr1 k]
      · rw [if_neg hb1] at hs
        cases hr2 : rotate h pi Side.Left with
        | none =>
          simp only [hr2] at hs
          exact StepOut.noConfusion hs
        | some hbh =>
        simp only [hr2] at hs
        by_cases hb0 : balance_factor h z = 0
        · rw [if_pos hb0] at hs
          exact StepOut.noConfusion hs
        · rw [if_neg hb0] at hs
          cases hs
          refine ⟨fun k => ?_, by simp [hpar]⟩
          rw [rotate_parent_map h nxt Side.Left _ hr2 k]
    · rw [if_neg hbf] at hs
      by_cases hbf0 : balance_factor h p = 0
      · rw [if_pos hbf0] at hs
        exact StepOut.noConfusion hs
      · rw [if_neg hbf0] at hs
        cases hs
        exact ⟨fun k => update_height_parent_map h nxt k, by simp [hpar]⟩
  | false =>
    simp only [hilc] at hs
    by_cases hbf : balance_factor h p < 0
    · rw [if_pos hbf] at hs
      cases hzr : p.left with
      | none =>
        simp only [hzr] at hs
        exact StepOut.noConfusion hs
      | some zi =>
      simp only [hzr] at hs
      cases hz : h zi with
      | none =>
        simp only [hz] at hs
        exact StepOut.noConfusion hs
      | some z =>
      simp only [hz] at hs
      by_cases hb1 : balance_factor h z > 0
      · rw [if_pos hb1] at hs
        cases hr1 : rotate h zi Side.Left with
        | none =>
          simp only [hr1] at hs
          exact StepOut.noConfusion hs
        | some ha =>
        simp only [hr1] at hs
        cases hr2 : rotate ha pi Side.Right with
        | none =>
          simp only [hr2] at hs
          exact StepOut.noConfusion hs
        | some hbh =>
        simp only [hr2] at hs
        by_cases hb0 : b = 0
        · rw [if_pos hb0] at hs
          exact StepOut.noConfusion hs
        · rw [if_neg hb0] at hs
          cases hs
          refine ⟨fun k => ?_, by simp [hpar]⟩
          rw [rotate_parent_map ha nxt Side.Right _ hr2 k, rotate_parent_map h zi Side.Left _ hr1 k]
      · rw [if_neg hb1] at hs
        cases hr2 : rotate h pi Side.Right with
        | none =>
          simp only [hr2] at hs
          exact StepOut.noConfusion hs
        | some hbh =>
        simp only [hr2] at hs
        by_cases hb0 : b = 0
        · rw [if_pos hb0] at hs
          exact StepOut.noConfusion hs
        · rw [if_neg hb0] at hs
          cases hs
          refine ⟨fun k => ?_, by simp [hpar]⟩
          rw [rotate_parent_map h nxt Side.Right _ hr2 k]
    · rw [if_neg hbf] at hs
      by_cases hbf0 : balance_factor h p = 0
      · rw [if_pos hbf0] at hs
        exact StepOut.noConfusion hs
      · rw [if_neg hbf0] at hs
        cases hs
        exact ⟨fun k => update_height_parent_map h nxt k, by simp [hpar]⟩

/-- The ancestor count only reads parent fields, so it is stable under
any transformation that preserves every record's parent field. -/
lemma chain_len_congr (h h2 : Heap) (hp : ∀ k, parent_map h2 k = parent_map h k) :
    ∀ f i, chain_len h2 f i = chain_len h f i := by
  intro f
  induction f with
  | zero => intro i; rfl
  | succ f ih =>
    intro i
    have hpi := hp i
    unfold parent_map at hpi
    cases h2i : h2 i with
    | none =>
      have hhi : h i = none := by
        cases hhi : h i with
        | none => rfl
        | some m =>
          rw [h2i, hhi] at hpi
          simp at hpi
      rw [chain_len_none h2 f i h2i, chain_len_none h f i hhi]
    | some n2 =>
      cases hhi : h i with
      | none =>
        rw [h2i, hhi] at hpi
        simp at hpi
      | some m =>
        rw [chain_len_some h2 f i n2 h2i, chain_len_some h f i m hhi]
        have hpe : n2.parent = m.parent := by
          rw [h2i, hhi] at hpi
          simpa using hpi
        rw [hpe]
        cases m.parent with
        | none => rfl
        | some pp => simp [ih]

lemma rebalance_loop_no_fuel_out :
    ∀ (a : Nat) (f : Nat) (h : Heap) (r : Nat) (b : Int),
      chain_len h f r = some a → rebalance_loop (a + 1) h (some r) b ≠ RebalResult.outOfFuel := by
  intro a
  induction a with
  | zero =>
    intro f h r b hc
    cases f with
    | zero => rw [chain_len_zero] at hc; exact absurd hc (by simp)
    | succ f =>
      cases hhr : h r with
      | none =>
        rw [chain_len_none h f r hhr] at hc
        exact absurd hc (by simp)
      | some n =>
        rw [chain_len_some h f r n hhr] at hc
        cases hpn : n.parent with
        | none =>
          have hstep : rebalance_step h r b = StepOut.stop h := by
            unfold rebalance_step
            simp only [hhr, hpn]
          intro hout
          unfold rebalance_loop at hout
          simp only [hstep] at hout
          exact RebalResult.noConfusion hout
        | some pp =>
          simp only [hpn] at hc
          cases hcc : chain_len h f pp with
          | none => rw [hcc] at hc; simp at hc
          | some aa => rw [hcc] at hc; simp at hc
  | succ a ih =>
    intro f h r b hc
    cases f with
    | zero => rw [chain_len_zero] at hc; exact absurd hc (by simp)
    | succ f =>
      cases hhr : h r with
      | none =>
        rw [chain_len_none h f r hhr] at hc
        exact absurd hc (by simp)
      | some n =>
        rw [chain_len_some h f r n hhr] at hc
        cases hpn : n.parent with
        | none => simp only [hpn] at hc; simp at hc
        | some pp =>
          simp only [hpn] at hc
          cases hcc : chain_len h f pp with
          | none => rw [hcc] at hc; simp at hc
          | some aa =>
            rw [hcc] at hc
            have haa : aa = a := by simpa using hc
            subst haa
            intro hout
            unfold rebalance_loop at hout
            cases hstep : rebalance_step h r b with
            | panic =>
              simp only [hstep] at hout
              exact RebalResult.noConfusion hout
            | stop hb =>
              simp only [hstep] at hout
              exact RebalResult.noConfusion hout
            | cont hb nxt bb =>
              simp only [hstep] at hout
              obtain ⟨hpm, hnext⟩ := step_cont_chain h r b hb nxt bb hstep
              have hnxt : nxt = pp := by
                rw [hhr] at hnext
                simp [hpn] at hnext
                exact hnext.symm
              subst hnxt
              have hc2 : chain_len hb f nxt = some aa := by
                rw [chain_len_congr h hb hpm f nxt]
                exact hcc
              exact ih f hb nxt bb hc2 hout

/-!
Helper lemmas about the inductive-tree traversals.
-/

lemma chase_right_cons (l : Tree) (v : Int) (ht : Nat) (r : Tree) :
    chase Side.Right (Tree.node l v ht r) =
      some (match chase Side.Right r with | none => Tree.node l v ht r | some m => m) := rfl

lemma chase_left_cons (l : Tree) (v : Int) (ht : Nat) (r : Tree) :
    chase Side.Left (Tree.node l v ht r) =
      some (match chase Side.Left l with | none => Tree.node l v ht r | some m => m) := rfl

lemma chase_right_noright : ∀ t : Tree, t ≠ Tree.leaf →
    ∃ m, chase Side.Right t = some m ∧ Tree.right m = Tree.leaf := by
  intro t
  induction t with
  | leaf => intro hc; exact absurd rfl hc
  | node l v ht r ihl ihr =>
    intro _
    cases r with
    | leaf => exact ⟨Tree.node l v ht Tree.leaf, by simp [chase], rfl⟩
    | node a b c d =>
      obtain ⟨m, hm, hmr⟩ := ihr (by simp)
      exact ⟨m, by rw [chase_right_cons, hm], hmr⟩

lemma chase_left_noleft : ∀ t : Tree, t ≠ Tree.leaf →
    ∃ m, chase Side.Left t = some m ∧ Tree.left m = Tree.leaf := by
  intro t
  induction t with
  | leaf => intro hc; exact absurd rfl hc
  | node l v ht r ihl ihr =>
    intro _
    cases l with
    | leaf => exact ⟨Tree.node Tree.leaf v ht r, by simp [chase], rfl⟩
    | node a b c d =>
      obtain ⟨m, hm, hml⟩ := ihl (by simp)
      exact ⟨m, by rw [chase_left_cons, hm], hml⟩

lemma sorted_cons_all : ∀ (l : List Int) (a : Int), sortedLt (a :: l) = true → ∀ y ∈ l, a < y := by
  intro l
  induction l with
  | nil => intro a _ y hy; cases hy
  | cons b t ih =>
    intro a hs y hy
    have hab : a < b ∧ sortedLt (b :: t) = true := by
      simpa [sortedLt] using hs
    cases hy with
    | head => exact hab.1
    | tail _ hyt => exact lt_trans hab.1 (ih b hab.2 y hyt)

lemma sorted_tail : ∀ (l : List Int) (a : Int), sortedLt (a :: l) = true → sortedLt l = true := by
  intro l a hs
  cases l with
  | nil => rfl
  | cons b t => exact (by simpa [sortedLt] using hs : a < b ∧ sortedLt (b :: t) = true).2

lemma sorted_cons_intro : ∀ (l : List Int) (a : Int), (∀ y ∈ l, a < y) → sortedLt l = true →
    sortedLt (a :: l) = true := by
  intro l a hall hs
  cases l with
  | nil => rfl
  | cons b t =>
    simp only [sortedLt, Bool.and_eq_true, decide_eq_true_eq]
    exact ⟨hall b (List.mem_cons_self b t), hs⟩

lemma sorted_append : ∀ (L R : List Int), sortedLt (L ++ R) = true →
    sortedLt L = true ∧ sortedLt R = true ∧ ∀ x ∈ L, ∀ y ∈ R, x < y := by
  intro L
  induction L with
  | nil =>
    intro R hs
    exact ⟨rfl, hs, fun x hx => absurd hx (List.not_mem_nil x)⟩
  | cons a La ih =>
    intro R hs
    have hs2 : sortedLt (a :: (La ++ R)) = true := hs
    have hall := sorted_cons_all (La ++ R) a hs2
    have htl := sorted_tail (La ++ R) a hs2
    obtain ⟨hL, hR, hcross⟩ := ih R htl
    refine ⟨sorted_cons_intro La a (fun y hy => hall y (List.mem_append_left R hy)) hL, hR, ?_⟩
    intro x hx y hy
    cases hx with
    | head => exact hall y (List.mem_append_right La hy)
    | tail _ hxt => exact hcross x hxt y hy

lemma chase_right_max : ∀ t : Tree, t ≠ Tree.leaf → sortedLt (toList t) = true →
    ∃ m, chase Side.Right t = some m ∧ Tree.right m = Tree.leaf ∧
      Tree.value m ∈ toList t ∧ ∀ y ∈ toList t, y ≤ Tree.value m := by
  intro t
  induction t with
  | leaf => intro hc; exact absurd rfl hc
  | node l v ht r ihl ihr =>
    intro _ hs
    have hs2 : sortedLt (toList l ++ v :: toList r) = true := by
      simpa [toList] using hs
    obtain ⟨hL, hvR, hcross⟩ := sorted_append (toList l) (v :: toList r) hs2
    cases r with
    | leaf =>
      refine ⟨Tree.node l v ht Tree.leaf, by simp [chase], rfl, ?_, ?_⟩
      · simp [toList, Tree.value]
      · intro y hy
        simp only [toList] at hy
        rcases List.mem_append.mp hy with hyl | hyv
        · exact le_of_lt (hcross y hyl v (List.mem_cons_self v _))
        · simp only [toList, List.mem_cons, List.not_mem_nil, or_false] at hyv
          simp [hyv, Tree.value]
    | node a b c d =>
      obtain ⟨m, hm, hmr, hmem, hmax⟩ := ihr (by simp) (sorted_tail _ v hvR)
      refine ⟨m, by rw [chase_right_cons, hm], hmr, ?_, ?_⟩
      · simp only [toList]
        exact List.mem_append_right _ (List.mem_cons_of_mem v hmem)
      · intro y hy
        simp only [toList] at hy
        have hvm : v < Tree.value m := sorted_cons_all (toList (Tree.node a b c d)) v hvR _ hmem
        rcases List.mem_append.mp hy with hyl | hyv
        · exact le_of_lt (lt_trans (hcross y hyl v (List.mem_cons_self v _)) hvm)
        · rcases List.mem_cons.mp hyv with hyv2 | hyr
          · rw [hyv2]; exact le_of_lt hvm
          · exact hmax y hyr

lemma remove_go_absent : ∀ (t : Tree) (v : Int), v ∉ toList t → remove_go t v = none := by
  intro t
  induction t with
  | leaf => intro v _; rfl
  | node l x ht r ihl ihr =>
    intro v hv
    simp only [toList, List.mem_append, List.mem_cons, not_or] at hv
    obtain ⟨hnl, hne, hnr⟩ := hv
    unfold remove_go
    rw [if_neg hne]
    by_cases hlt : x < v
    · rw [if_pos hlt, ihl v hnl]
      rfl
    · rw [if_neg hlt, ihr v hnr]
      rfl

/-!
The claims.
-/

/-- C1: for every tree and every value not present in it (including the
empty tree), `remove(value)` returns `false` and the tree — every
node's value, cached height and child links, and hence the parent
relation the owning structure induces — is exactly as before the call.
(The search loop never mutates; it can only break out at a node whose
value equals the argument, so an absent value exits through the
not-found arm.) -/
theorem remove_absent_unchanged (t : Tree) (v : Int) (hv : v ∉ toList t) :
    remove t v = (false, t) := by
  unfold remove
  rw [remove_go_absent t v hv]

/-- C1 witness: removing the absent value 5 from the root-1/right-2
tree (and so from any concrete instance) returns not-found with the
tree unchanged. -/
theorem remove_absent_unchanged_witness : remove pairTree 5 = (false, pairTree) :=
  remove_absent_unchanged pairTree 5 (by decide)

/-- C2 (failing input, evaluated): `pairTree` — root 1 with right child
2 — satisfies BST order and contains 2, yet `remove 2` returns
not-found, leaving the value in place: the source's descent maps
`Ordering::Greater` to the LEFT child and `Ordering::Less` to the
RIGHT child, so it walks away from every value not at the root. -/
theorem remove_misses_present_value :
    sortedLt (toList pairTree) = true ∧ (2 : Int) ∈ toList pairTree ∧
      remove pairTree 2 = (false, pairTree) := by decide

/-- C3 (counterexample): `fiveHeap` satisfies all four §3 invariants
(BST order, balance, height consistency, parent consistency).  After
`rotate(Right)` at its root (record 0, left child record 1), record 3
still carries parent link 1, but record 1's child links are records 4
and 2 and record 3 now hangs off record 0: a former child of the
rotated pair is left with a parent link referring to a record that does
not hold it as a child, refuting the claim at this input. -/
theorem rotate_breaks_parent_consistency :
    ((rotate fiveHeap 0 Side.Right).bind (fun g => g 3)).map Node.parent = some (some 1) ∧
    ((rotate fiveHeap 0 Side.Right).bind (fun g => g 1)).map Node.left = some (some 4) ∧
    ((rotate fiveHeap 0 Side.Right).bind (fun g => g 1)).map Node.right = some (some 2) ∧
    ((rotate fiveHeap 0 Side.Right).bind (fun g => g 0)).map Node.left = some (some 3) := by
  decide

/-- C3 (amended): a successful `rotate(side)` at record `i` whose
`!side` child is record `j` rewrites NO record's parent link (the
content swap and the parent swap cancel on parent fields); the two
rotated records themselves stay mutually consistent — `i` holds `j` as
its `side` child and `j`'s parent link still names `i` — but every
other record keeps its old parent link, so the former children of the
two rotated nodes are not re-pointed to the records that now hold
them. -/
theorem rotate_parent_links_unchanged (h : Heap) (i j : Nat) (s : Side) (n sub : Node)
    (hi : h i = some n) (hch : n.child s.not = some j) (hj : h j = some sub)
    (hij : i ≠ j) (hsp : sub.parent = some i) :
    ∃ hh, rotate h i s = some hh ∧
      (∀ k, parent_map hh k = parent_map h k) ∧
      (hh i).map (fun m => m.child s) = some (some j) ∧
      (hh j).map Node.parent = some (some i) := by
  obtain ⟨hh, hrot, hpm, hframe, hvi, hchild, hpi, hvj, hpj⟩ :=
    rotate_spec h i j s n sub hi hch hj hij
  exact ⟨hh, hrot, hpm, hchild, by rw [hpj, hsp]⟩

/-- C3 witness: the amended statement instantiated at Scenario D's
two-record arena. -/
theorem rotate_parent_links_unchanged_witness :
    ∃ hh, rotate dHeap 0 Side.Right = some hh ∧
      (∀ k, parent_map hh k = parent_map dHeap k) ∧
      (hh 0).map (fun m => m.child Side.Right) = some (some 1) ∧
      (hh 1).map Node.parent = some (some 0) :=
  rotate_parent_links_unchanged dHeap 0 1 Side.Right
    { value := 1, height := 2, parent := none, left := some 1, right := none }
    { value := 2, height := 1, parent := some 0, left := none, right := none }
    rfl rfl rfl (by decide) rfl

/-- C4 (counterexample): rotating Scenario D's subtree moves a value
between records: record 0 held value 1 before `rotate(Right)` and holds
value 2 after it — the repository's own test asserts exactly this
(`assert_eq!(2, root.borrow().value)`) — so an outstanding reference to
record 0 observes a different value across the rotation, refuting the
claim. -/
theorem rotate_moves_value_between_records :
    (dHeap 0).map Node.value = some 1 ∧
    ((rotate dHeap 0 Side.Right).bind (fun g => g 0)).map Node.value = some 2 := by decide

/-- C4 (amended): rotation rewrites only the two rotated records —
every record other than `i` and `j` is bit-for-bit untouched — but the
two records exchange their entire contents apart from parent links
(`mem::swap` of the full nodes, then a swap-back of the parents), so
afterwards record `i` holds the promoted child's value and record `j`
holds the demoted node's value. -/
theorem rotate_frame_and_value_swap (h : Heap) (i j : Nat) (s : Side) (n sub : Node)
    (hi : h i = some n) (hch : n.child s.not = some j) (hj : h j = some sub) (hij : i ≠ j) :
    ∃ hh, rotate h i s = some hh ∧
      (∀ k, k ≠ i → k ≠ j → hh k = h k) ∧
      (hh i).map Node.value = some sub.value ∧
      (hh j).map Node.value = some n.value := by
  obtain ⟨hh, hrot, hpm, hframe, hvi, hchild, hpi, hvj, hpj⟩ :=
    rotate_spec h i j s n sub hi hch hj hij
  exact ⟨hh, hrot, hframe, hvi, hvj⟩

/-- C4 witness: the amended statement instantiated at Scenario D's
two-record arena. -/
theorem rotate_frame_and_value_swap_witness :
    ∃ hh, rotate dHeap 0 Side.Right = some hh ∧
      (∀ k, k ≠ 0 → k ≠ 1 → hh k = dHeap k) ∧
      (hh 0).map Node.value = some 2 ∧
      (hh 1).map Node.value = some 1 :=
  rotate_frame_and_value_swap dHeap 0 1 Side.Right
    { value := 1, height := 2, parent := none, left := some 1, right := none }
    { value := 2, height := 1, parent := some 0, left := none, right := none }
    rfl rfl rfl (by decide)

/-- C5: Scenario D — `rotate(Right)` on the subtree whose root (record
0) holds 1 with a left child (record 1) holding 2 and no other children
yields a local subtree root holding value 2 whose right child holds
value 1 (the full records after the rotation, heights and links
included). -/
theorem rotate_scenario_d :
    (rotate dHeap 0 Side.Right).bind (fun g => g 0) =
      some { value := 2, height := 2, parent := none, left := none, right := some 1 } ∧
    (rotate dHeap 0 Side.Right).bind (fun g => g 1) =
      some { value := 1, height := 1, parent := some 0, left := none, right := none } := by
  decide

/-- C6: for every node with a left child, `replacement` returns exactly
the node reached by starting at that left child and following
right-child links while one exists; on a tree in BST order that node
holds the in-order predecessor of the starting node's value (a value
smaller than it that every other smaller value is at most); on
Scenario B it is the node with value 5 and on Scenario C the node with
value 2. -/
theorem replacement_is_predecessor :
    (∀ (l : Tree) (v : Int) (ht : Nat) (r : Tree), l ≠ Tree.leaf →
      replacement (Tree.node l v ht r) = chase Side.Right l) ∧
    (∀ (l : Tree) (v : Int) (ht : Nat) (r : Tree), l ≠ Tree.leaf →
      sortedLt (toList (Tree.node l v ht r)) = true →
      ∃ m, replacement (Tree.node l v ht r) = some m ∧
        Tree.value m ∈ toList (Tree.node l v ht r) ∧ Tree.value m < v ∧
        ∀ y ∈ toList (Tree.node l v ht r), y < v → y ≤ Tree.value m) ∧
    replacement scenB = some (Tree.node Tree.leaf 5 0 Tree.leaf) ∧
    replacement scenC = some (Tree.node Tree.leaf 2 1 Tree.leaf) := by
  have hstep : ∀ (l : Tree) (v : Int) (ht : Nat) (r : Tree), l ≠ Tree.leaf →
      replacement (Tree.node l v ht r) = chase Side.Right l := by
    intro l v ht r hl
    cases l with
    | leaf => exact absurd rfl hl
    | node a b c d => rfl
  refine ⟨hstep, ?_, by decide, by decide⟩
  intro l v ht r hl hs
  have hs2 : sortedLt (toList l ++ v :: toList r) = true := by simpa [toList] using hs
  obtain ⟨hL, hvR, hcross⟩ := sorted_append (toList l) (v :: toList r) hs2
  obtain ⟨m, hm, hmr, hmem, hmax⟩ := chase_right_max l hl hL
  have hmv : Tree.value m < v := hcross _ hmem v (List.mem_cons_self v _)
  refine ⟨m, by rw [hstep l v ht r hl, hm], ?_, hmv, ?_⟩
  · simp only [toList]
    exact List.mem_append_left _ hmem
  · intro y hy hyv
    simp only [toList] at hy
    rcases List.mem_append.mp hy with hyl | hyc
    · exact hmax y hyl
    · rcases List.mem_cons.mp hyc with hye | hyr
      · rw [hye] at hyv
        exact absurd hyv (lt_irrefl v)
      · exact absurd hyv (asymm (sorted_cons_all (toList r) v hvR y hyr))

/-- C6 witness: the chain characterisation instantiated at Scenario
B's root. -/
theorem replacement_is_predecessor_witness :
    replacement (Tree.node scenBL 1 2 scenBR) = chase Side.Right scenBL :=
  replacement_is_predecessor.1 scenBL 1 2 scenBR (by decide)

/-- C7: for every node with at least one child, the node `replacement`
returns exists and has at most one child: found in the left subtree it
has no right child, and (mirror case, left child absent) found in the
right subtree it has no left child. -/
theorem replacement_at_most_one_child (l : Tree) (v : Int) (ht : Nat) (r : Tree)
    (hlr : l ≠ Tree.leaf ∨ r ≠ Tree.leaf) :
    ∃ m, replacement (Tree.node l v ht r) = some m ∧
      (Tree.left m = Tree.leaf ∨ Tree.right m = Tree.leaf) ∧
      (l ≠ Tree.leaf → Tree.right m = Tree.leaf) ∧
      (l = Tree.leaf → Tree.left m = Tree.leaf) := by
  cases l with
  | leaf =>
    have hr : r ≠ Tree.leaf := hlr.resolve_left (fun hc => hc rfl)
    obtain ⟨m, hm, hml⟩ := chase_left_noleft r hr
    exact ⟨m, by rw [show replacement (Tree.node Tree.leaf v ht r) = chase Side.Left r from rfl,
      hm], Or.inl hml, fun hc => absurd rfl hc, fun _ => hml⟩
  | node a b c d =>
    obtain ⟨m, hm, hmr⟩ := chase_right_noright (Tree.node a b c d) (by simp)
    exact ⟨m, by rw [show replacement (Tree.node (Tree.node a b c d) v ht r)
        = chase Side.Right (Tree.node a b c d) from rfl, hm],
      Or.inr hmr, fun _ => hmr, fun hc => absurd hc (by simp)⟩

/-- C7 witness: instantiated at Scenario B's root, which has two
children. -/
theorem replacement_at_most_one_child_witness :
    ∃ m, replacement (Tree.node scenBL 1 2 scenBR) = some m ∧
      (Tree.left m = Tree.leaf ∨ Tree.right m = Tree.leaf) ∧
      (scenBL ≠ Tree.leaf → Tree.right m = Tree.leaf) ∧
      (scenBL = Tree.leaf → Tree.left m = Tree.leaf) :=
  replacement_at_most_one_child scenBL 1 2 scenBR (Or.inl (by decide))

/-- C8 (counterexample): in `dupHeap`, record 2 is the RIGHT child of
record 0 (whose left-child link is record 1, not record 2), yet
`is_left_child` answers `true` for record 2: records 1 and 2 hold the
same value 7 and the source compares values, not identities — refuting
both the "by identity" and the "returns false rather than misreporting
under duplicates" parts of the claim. -/
theorem is_left_child_misreports_duplicate :
    is_left_child dupHeap 2 = some true ∧
    (dupHeap 0).map Node.left = some (some 1) ∧
    (dupHeap 0).map Node.right = some (some 2) := by decide

/-- C8 (amended): `is_left_child` returns `false` when the node has no
parent; when a parent exists it `unwrap`s the parent's LEFT child —
panicking (modelled `none`) when that child is absent — and otherwise
returns whether that child's VALUE equals this node's value: a value
comparison, which under duplicate values can report `true` for a node
that is actually the right child. -/
theorem is_left_child_by_value (h : Heap) (i : Nat) (n : Node) (hi : h i = some n) :
    (n.parent = none → is_left_child h i = some false) ∧
    (∀ pi p, n.parent = some pi → h pi = some p →
      (p.left = none → is_left_child h i = none) ∧
      (∀ li ln, p.left = some li → h li = some ln →
        is_left_child h i = some (decide (ln.value = n.value)))) := by
  constructor
  · intro hp
    simp only [is_left_child, hi, hp]
  · intro pi p hp hpp
    constructor
    · intro hpl
      simp only [is_left_child, hi, hp, hpp, hpl]
    · intro li ln hli hln
      simp only [is_left_child, hi, hp, hpp, hli, hln]

/-- C8 witness: the amended characterisation instantiated at
`dupHeap`'s record 2, evaluating to the misreported `true`. -/
theorem is_left_child_by_value_witness :
    is_left_child dupHeap 2 = some (decide ((7 : Int) = 7)) :=
  ((is_left_child_by_value dupHeap 2
      { value := 7, height := 1, parent := some 0, left := none, right := none } rfl).2 0
      { value := 5, height := 2, parent := none, left := some 1, right := some 2 } rfl rfl).2 1
      { value := 7, height := 1, parent := some 0, left := none, right := none } rfl rfl

/-- C9: on the well-formed two-node tree whose root (record 0) has only
a right child (record 1), `is_left_child` on that right child `unwrap`s
the parent's absent left child and panics (modelled `none`), and the
rebalancing walk started at that child reaches the same failing
`unwrap` and aborts, contradicting the claim that `is_left_child`
returns (false) there and that no public operation panics. -/
theorem is_left_child_unwrap_panics :
    is_left_child rightOnlyHeap 1 = none ∧
    rebalance 2 rightOnlyHeap (some 1) = RebalResult.panicked :=
  ⟨by decide, rfl⟩

/-- C10: the rebalancing walk terminates within one iteration per node
of the starting record's ancestor chain: no iteration of the loop body
ever rewrites a parent link, each `continue` resumes exactly at the
parent of the record just processed, and every other outcome stops the
loop, so with `a` ancestors (`chain_len … = some a`) fuel `a + 1` never
runs out. -/
theorem rebalance_walk_terminates (h : Heap) (r : Nat) (f a : Nat)
    (hc : chain_len h f r = some a) :
    rebalance (a + 1) h (some r) ≠ RebalResult.outOfFuel :=
  rebalance_loop_no_fuel_out a f h r 0 hc

/-- C10 witness: record 3 of `fiveHeap` has two ancestors, and the walk
started there with fuel 3 does not run out. -/
theorem rebalance_walk_terminates_witness :
    rebalance 3 fiveHeap (some 3) ≠ RebalResult.outOfFuel :=
  rebalance_walk_terminates fiveHeap 3 3 2 (by decide)

end Avl
